import Mathlib

/-!
Verification of the binary-resource embedding tool
(`CMakeModules/spv_to_header.py`): a shallow embedding of the script's
pure rendering core and of its command-line entry point, together with
proofs of the specification's claims about it.

The script reads a binary file, renders a C++ header embedding the bytes
as a `uint8_t` array, and writes the text to a destination path.  Bytes
are modelled as `Fin 256`, file text as `String`, and each `f.write`
call of the source as one element of a list of strings, so that the
whole rendered file is their concatenation in write order.
-/

/-- A byte as read from the input file: an 8-bit value. -/
abbrev Byte := Fin 256

/-- One lowercase hexadecimal digit, as produced by Python's `%x`
formatting for a digit value `0..15` (values outside that range do not
occur for bytes). -/
def hexDigitChar : Nat → Char
  | 0 => '0' | 1 => '1' | 2 => '2' | 3 => '3' | 4 => '4'
  | 5 => '5' | 6 => '6' | 7 => '7' | 8 => '8' | 9 => '9'
  | 10 => 'a' | 11 => 'b' | 12 => 'c' | 13 => 'd' | 14 => 'e'
  | _ => 'f'

/-- `f'0x{b:02x}'` of the source: a byte rendered as `0x` followed by
exactly two lowercase hex digits (zero padded). -/
def hexLit (b : Byte) : String :=
  String.mk ['0', 'x', hexDigitChar (b.val / 16), hexDigitChar (b.val % 16)]

/-- Value of a lowercase hexadecimal digit character, `none` on any
other character.  Used only to state the decoding direction of the
round-trip claim. -/
def hexVal (c : Char) : Option Nat :=
  if '0' ≤ c ∧ c ≤ '9' then some (c.toNat - 48)
  else if 'a' ≤ c ∧ c ≤ 'f' then some (c.toNat - 87)
  else none

/-- Parse one array element back into a byte value: the literal must be
`0x` followed by exactly two lowercase hex digits. -/
def decodeHexLit (s : String) : Option Nat :=
  match s.data with
  | ['0', 'x', h, l] =>
    match hexVal h, hexVal l with
    | some hv, some lv => some (16 * hv + lv)
    | _, _ => none
  | _ => none

/-- The source's row loop `for i in range(0, len(spv_data), 12):
chunk = spv_data[i:i+12]`: the list of successive 12-byte chunks (the
last one possibly shorter); no chunk at all for empty input. -/
def rows : List Byte → List (List Byte)
  | [] => []
  | a :: l => ((a :: l).take 12) :: rows ((a :: l).drop 12)
termination_by l => l.length
decreasing_by
  simp only [List.length_drop, List.length_cons]
  omega

/-- Python's `sep.join(parts)`: parts interleaved with the separator,
empty string for no parts. -/
def joinSep (sep : String) : List String → String
  | [] => ""
  | [s] => s
  | s :: rest => s ++ sep ++ joinSep sep rest

/-- One written row of the array body:
`f"    {hex_values},\n"` with `hex_values = ', '.join(...)`. -/
def rowLine (chunk : List Byte) : String :=
  "    " ++ joinSep ", " (chunk.map hexLit) ++ ",\n"

/-- One decimal digit character, as produced by Python's decimal
formatting of an `int` (digit values are `0..9`; the final case is
unreachable). -/
def decDigitChar : Nat → Char
  | 0 => '0' | 1 => '1' | 2 => '2' | 3 => '3' | 4 => '4'
  | 5 => '5' | 6 => '6' | 7 => '7' | 8 => '8' | _ => '9'

/-- The decimal digit list of a natural number, most significant digit
first (Python's `str(int)` for nonnegative values). -/
def decDigits (n : Nat) : List Char :=
  if _h : n < 10 then [decDigitChar n]
  else decDigits (n / 10) ++ [decDigitChar (n % 10)]
termination_by n
decreasing_by exact Nat.div_lt_self (by omega) (by omega)

/-- Python's `f"{n}"` on a nonnegative `int`: its decimal literal. -/
def decRepr (n : Nat) : String :=
  String.mk (decDigits n)

/-- Numeric value of a decimal digit string: the decoding direction for
the size constant (base-10 positional fold). -/
def decVal (cs : List Char) : Nat :=
  cs.foldl (fun a c => 10 * a + (c.toNat - 48)) 0

/-- `os.path.basename` on POSIX paths: everything after the last
slash (computed character by character so that it evaluates by kernel
reduction). -/
def basename (p : String) : String :=
  String.mk ((p.data.reverse.takeWhile (fun c => c ≠ '/')).reverse)

/-- Python's `str.upper()` on the ASCII names this tool is called with:
uppercase every character. -/
def strUpper (s : String) : String :=
  String.mk (s.data.map Char.toUpper)

/-- `f"SHADER_{var_name.upper()}_H"` of the source: the include-guard
token derived from the logical name. -/
def guardName (var_name : String) : String :=
  "SHADER_" ++ strUpper var_name ++ "_H"

/-- The successive arguments of the source's `f.write` calls, in
program order: two comment lines, guard open, includes, namespace open,
size constant, array open, one row line per 12-byte chunk, array close,
namespace close, guard close. -/
def writes (spv_file var_name : String) (spv_data : List Byte) : List String :=
  ["// Auto-generated from " ++ basename spv_file ++ "\n",
   "// DO NOT EDIT!\n\n",
   "#ifndef " ++ guardName var_name ++ "\n",
   "#define " ++ guardName var_name ++ "\n\n",
   "#include <cstdint>\n",
   "#include <cstddef>\n\n",
   "namespace Shaders \x7b\n\n",
   "constexpr size_t " ++ var_name ++ "_size = " ++ decRepr spv_data.length ++ ";\n\n",
   "constexpr uint8_t " ++ var_name ++ "_data[] = \x7b\n"]
  ++ (rows spv_data).map rowLine
  ++ ["\x7d;\n\n",
      "\x7d // namespace Shaders\n\n",
      "#endif // " ++ guardName var_name ++ "\n"]

/-- The array body between the braces: the row lines concatenated. -/
def arrayBody (spv_data : List Byte) : String :=
  String.join ((rows spv_data).map rowLine)

/-- The full text written to the destination file: the `f.write`
arguments concatenated in order. -/
def spvToHeaderText (spv_file var_name : String) (spv_data : List Byte) : String :=
  String.join (writes spv_file var_name spv_data)

/-! ### Helper lemmas -/

theorem strJoin_foldl (s : String) (l : List String) :
    List.foldl (· ++ ·) s l = s ++ List.foldl (· ++ ·) "" l := by
  induction l generalizing s with
  | nil => simp [String.append_empty]
  | cons a t ih =>
    simp only [List.foldl_cons]
    rw [ih ("" ++ a), ih (s ++ a), String.empty_append, String.append_assoc]

theorem strJoin_cons (a : String) (l : List String) :
    String.join (a :: l) = a ++ String.join l := by
  simp only [String.join, List.foldl_cons, String.empty_append]
  exact strJoin_foldl a l

theorem strJoin_append (l₁ l₂ : List String) :
    String.join (l₁ ++ l₂) = String.join l₁ ++ String.join l₂ := by
  induction l₁ with
  | nil => simp [String.join, String.empty_append]
  | cons a t ih =>
    simp only [List.cons_append, strJoin_cons, ih, String.append_assoc]

theorem rows_flatten (l : List Byte) : (rows l).flatten = l := by
  induction l using rows.induct with
  | case1 => simp [rows]
  | case2 a t ih =>
    rw [rows]
    simp only [List.flatten_cons, ih, List.take_append_drop]

theorem rows_eq_nil_iff (l : List Byte) : rows l = [] ↔ l = [] := by
  cases l with
  | nil => simp [rows]
  | cons a t => simp [rows]

theorem mem_rows_ne_nil (l : List Byte) : ∀ r ∈ rows l, r ≠ [] := by
  induction l using rows.induct with
  | case1 => simp [rows]
  | case2 a t ih =>
    rw [rows]
    intro r hr
    rcases List.mem_cons.mp hr with h | h
    · subst h
      simp
    · exact ih r h

theorem rows_get_length (l : List Byte) :
    ∀ i r, i + 1 < (rows l).length → (rows l)[i]? = some r → r.length = 12 := by
  induction l using rows.induct with
  | case1 => simp [rows]
  | case2 a t ih =>
    intro i r h hr
    rw [rows] at h hr
    cases i with
    | zero =>
      simp only [List.getElem?_cons_zero, Option.some.injEq] at hr
      subst hr
      simp only [List.length_cons] at h
      have hne : rows ((a :: t).drop 12) ≠ [] := by
        intro hnil
        rw [hnil] at h
        simp at h
      have hlen : 12 < (a :: t).length := by
        have h2 := (rows_eq_nil_iff ((a :: t).drop 12)).not.mp hne
        rw [List.drop_eq_nil_iff] at h2
        omega
      rw [List.length_take]
      omega
    | succ j =>
      simp only [List.getElem?_cons_succ] at hr
      simp only [List.length_cons] at h
      exact ih j r (by omega) hr

theorem rows_getLast?_length (l : List Byte) :
    ∀ r, (rows l).getLast? = some r →
      r.length = if l.length % 12 = 0 then 12 else l.length % 12 := by
  induction l using rows.induct with
  | case1 => simp [rows]
  | case2 a t ih =>
    intro r hr
    rw [rows] at hr
    rcases hdrop : (a :: t).drop 12 with _ | ⟨b, u⟩
    · have hle : (a :: t).length ≤ 12 := List.drop_eq_nil_iff.mp hdrop
      rw [hdrop] at hr
      simp only [rows, List.getLast?_singleton, Option.some.injEq] at hr
      subst hr
      have h1 : 0 < (a :: t).length := by simp
      rw [List.length_take]
      rcases Nat.lt_or_ge (a :: t).length 12 with hlt | hge
      · rw [if_neg (by rw [Nat.mod_eq_of_lt hlt]; omega), Nat.mod_eq_of_lt hlt]
        omega
      · have h12 : (a :: t).length = 12 := by omega
        rw [h12]
        simp
    · rw [hdrop] at hr
      rcases hrows : rows (b :: u) with _ | ⟨c, v⟩
      · exact absurd hrows (by simp [rows_eq_nil_iff])
      · rw [hrows, List.getLast?_cons_cons] at hr
        rw [← hrows] at hr
        rw [← hdrop] at hr
        have := ih r hr
        have hlen : (a :: t).length = ((a :: t).drop 12).length + 12 := by
          have h12 : 12 ≤ (a :: t).length := by
            by_contra hc
            rw [List.drop_eq_nil_iff.mpr (by omega)] at hdrop
            exact absurd hdrop (by simp)
          rw [List.length_drop]
          omega
        rw [hlen, Nat.add_mod_right]
        exact this

set_option maxRecDepth 4096 in
theorem decodeHexLit_hexLit : ∀ b : Byte, decodeHexLit (hexLit b) = some b.val := by
  decide

theorem joinSep_comma (l : List String) (hne : l ≠ []) :
    joinSep ", " l ++ "," = joinSep " " (l.map (fun s => s ++ ",")) := by
  induction l with
  | nil => exact absurd rfl hne
  | cons a t ih =>
    cases t with
    | nil => simp [joinSep]
    | cons b u =>
      have step : joinSep ", " (a :: b :: u) = a ++ ", " ++ joinSep ", " (b :: u) := rfl
      have step2 : joinSep " " ((a :: b :: u).map (fun s => s ++ ",")) =
          (a ++ ",") ++ " " ++ joinSep " " ((b :: u).map (fun s => s ++ ",")) := rfl
      rw [step, step2, ← ih (by simp)]
      have hsep : (", " : String) = "," ++ " " := by decide
      rw [hsep]
      simp only [String.append_assoc]

theorem decVal_append_digit (cs : List Char) (c : Char) :
    decVal (cs ++ [c]) = 10 * decVal cs + (c.toNat - 48) := by
  simp [decVal, List.foldl_append]

theorem decVal_decDigits (n : Nat) : decVal (decDigits n) = n := by
  induction n using decDigits.induct with
  | case1 n h =>
    rw [decDigits, dif_pos h]
    have : ∀ d, d < 10 → (decDigitChar d).toNat - 48 = d := by decide
    simp [decVal, this n h]
  | case2 n h ih =>
    rw [decDigits, dif_neg h, decVal_append_digit, ih]
    have hm : (decDigitChar (n % 10)).toNat - 48 = n % 10 := by
      have : ∀ d, d < 10 → (decDigitChar d).toNat - 48 = d := by decide
      exact this _ (Nat.mod_lt _ (by omega))
    rw [hm]
    omega

theorem strJoin_nil : String.join [] = "" := rfl

theorem spvToHeaderText_eq (spv name : String) (data : List Byte) :
    spvToHeaderText spv name data =
      "// Auto-generated from " ++ basename spv ++ "\n" ++ "// DO NOT EDIT!\n\n"
      ++ ("#ifndef " ++ guardName name ++ "\n")
      ++ ("#define " ++ guardName name ++ "\n\n")
      ++ "#include <cstdint>\n" ++ "#include <cstddef>\n\n"
      ++ "namespace Shaders \x7b\n\n"
      ++ ("constexpr size_t " ++ name ++ "_size = " ++ decRepr data.length ++ ";\n\n")
      ++ ("constexpr uint8_t " ++ name ++ "_data[] = \x7b\n")
      ++ arrayBody data
      ++ "\x7d;\n\n"
      ++ "\x7d // namespace Shaders\n\n"
      ++ ("#endif // " ++ guardName name ++ "\n") := by
  simp only [spvToHeaderText, writes, arrayBody, strJoin_append, strJoin_cons, strJoin_nil,
    String.append_empty, String.append_assoc]

/-! ### Models of the invocation context -/

/-- The ambient context of one invocation: wall-clock time and platform
name.  The source consults neither while rendering the text, which is
what makes the output reproducible; the parameter records that
independence explicitly. -/
structure Env where
  time : Nat
  platform : String

/-- One complete rendering run in an ambient context: the source
computes the text purely from the input path, the logical name and the
bytes, never reading `_env`. -/
def runEmbedder (_env : Env) (spv_file var_name : String) (spv_data : List Byte) : String :=
  spvToHeaderText spv_file var_name spv_data

/-- Filesystem operations performed while persisting the rendered
text. -/
inductive FsOp where
  | openW (path : String)
  | write (path : String) (chunk : String)
  | close (path : String)
  | rename (src dest : String)
deriving DecidableEq

/-- Whether an operation is a rename. -/
def isRename : FsOp → Bool
  | .rename _ _ => true
  | _ => false

/-- The path at which an operation becomes visible (for a rename, its
destination). -/
def opPath : FsOp → String
  | .openW p => p
  | .write p _ => p
  | .close p => p
  | .rename _ d => d

/-- The persist step of the source, `with open(header_file, 'w') as f:`
followed by the `f.write` calls: open the destination itself for
writing (truncating), write each chunk, close. -/
def persistTrace (header_file : String) (chunks : List String) : List FsOp :=
  FsOp.openW header_file :: chunks.map (FsOp.write header_file) ++ [FsOp.close header_file]

/-- The filesystem-operation trace of one `spv_to_header` call. -/
def spvToHeaderTrace (spv_file header_file var_name : String) (spv_data : List Byte) :
    List FsOp :=
  persistTrace header_file (writes spv_file var_name spv_data)

/-- Follows the spec's words for the required persist pattern: write the
text to a temporary file in the destination's directory, then perform an
atomic rename onto the destination path. -/
def atomicWritePattern (ops : List FsOp) (dest : String) : Prop :=
  ∃ (tmp : String) (chunks : List String), tmp ≠ dest ∧
    ops = FsOp.openW tmp :: chunks.map (FsOp.write tmp)
      ++ [FsOp.close tmp, FsOp.rename tmp dest]

/-- Whether the final operation of a trace is a rename. -/
def lastIsRename (ops : List FsOp) : Bool :=
  (ops.getLast?.map isRename).getD false

theorem atomicWritePattern_lastIsRename {ops : List FsOp} {dest : String}
    (h : atomicWritePattern ops dest) : lastIsRename ops = true := by
  obtain ⟨tmp, chunks, _, rfl⟩ := h
  have hsplit : FsOp.openW tmp :: chunks.map (FsOp.write tmp)
      ++ [FsOp.close tmp, FsOp.rename tmp dest]
      = (FsOp.openW tmp :: chunks.map (FsOp.write tmp) ++ [FsOp.close tmp])
        ++ [FsOp.rename tmp dest] := by
    simp
  rw [lastIsRename, hsplit, List.getLast?_concat]
  rfl

/-- Contents of a file in the filesystem model: the input is a binary
file, the generated header a text file. -/
inductive FileData where
  | bin (bytes : List Byte)
  | text (t : String)

/-- Bytes obtained by a mode-`'rb'` read: a binary file's own bytes;
for a text file, the byte values of its characters (exact for the ASCII
content this tool handles). -/
def FileData.readBytes : FileData → List Byte
  | .bin b => b
  | .text t => t.data.map (fun c => ⟨c.toNat % 256, Nat.mod_lt _ (by omega)⟩)

/-- Observable outcome of one process run: exit code, lines printed to
standard output and to standard error, and the final filesystem. -/
structure RunResult where
  exitCode : Nat
  stdoutLines : List String
  stderrLines : List String
  fs : String → Option FileData

/-- The `__main__` block of the script: argument-count check (`sys.argv`
includes the program name, so three positional arguments means length
four), `os.path.exists` check on the input, then the conversion, whose
`print` calls go to standard output. -/
def pyMain (argv : List String) (fs : String → Option FileData) : RunResult :=
  if argv.length ≠ 4 then
    { exitCode := 1,
      stdoutLines := ["Usage: spv_to_header.py <input.spv> <output.h> <variable_name>"],
      stderrLines := [],
      fs := fs }
  else
    let spv_file := argv.getD 1 ""
    let header_file := argv.getD 2 ""
    let var_name := argv.getD 3 ""
    match fs spv_file with
    | none =>
      { exitCode := 1,
        stdoutLines := ["Error: " ++ spv_file ++ " not found"],
        stderrLines := [],
        fs := fs }
    | some fd =>
      let spv_data := fd.readBytes
      { exitCode := 0,
        stdoutLines := ["Generated " ++ header_file ++ " ("
          ++ decRepr spv_data.length ++ " bytes)"],
        stderrLines := [],
        fs := fun p => if p = header_file then
            some (.text (spvToHeaderText spv_file var_name spv_data))
          else fs p }

/-- Whether a character is a lowercase hexadecimal digit. -/
def isLowerHexDigit (c : Char) : Bool :=
  ('0' ≤ c && c ≤ '9') || ('a' ≤ c && c ≤ 'f')

/-- A 13-byte input, the concrete scenario exercising a full row plus a
one-element last row. -/
def demo13 : List Byte :=
  [0, 1, 2, 3, 4, 5, 6, 7, 8, 9, 10, 11, 12]

theorem isLowerHexDigit_hexDigitChar : ∀ n, n < 16 → isLowerHexDigit (hexDigitChar n) = true := by
  decide

theorem lastIsRename_persistTrace (d : String) (chunks : List String) :
    lastIsRename (persistTrace d chunks) = false := by
  have hsplit : persistTrace d chunks
      = (FsOp.openW d :: chunks.map (FsOp.write d)) ++ [FsOp.close d] := by
    simp [persistTrace]
  rw [lastIsRename, hsplit, List.getLast?_concat]
  rfl

/-! ### The claims -/

/-- C1: Round-trip fidelity: parsing the hex literals of the generated
data array back into bytes, in row order, yields exactly the original
input byte sequence — for every input, including the empty one and
inputs whose length is not a multiple of 12. -/
theorem spec_c1_roundtrip (binary : List Byte) :
    (((rows binary).map (fun chunk => chunk.map hexLit)).flatten).mapM decodeHexLit
      = some (binary.map Fin.val) := by
  rw [← List.map_flatten, rows_flatten]
  induction binary with
  | nil => rfl
  | cons b t ih =>
    rw [List.map_cons, List.map_cons, List.mapM_cons, decodeHexLit_hexLit b, ih]
    rfl

/-- C2: Row layout: every array element is a two-digit lowercase hex
literal prefixed with `0x`; every row except possibly the last holds
exactly 12 literals; the last row holds `len mod 12` literals (or 12
when the length is an exact multiple); and within a written row every
literal, the final one included, is followed by a comma. -/
theorem spec_c2_row_layout (binary : List Byte) :
    (∀ b : Byte, ∃ d₁ d₂ : Char,
        (hexLit b).data = ['0', 'x', d₁, d₂]
        ∧ isLowerHexDigit d₁ = true ∧ isLowerHexDigit d₂ = true)
    ∧ (∀ i r, i + 1 < (rows binary).length → (rows binary)[i]? = some r → r.length = 12)
    ∧ (∀ r, (rows binary).getLast? = some r →
        r.length = if binary.length % 12 = 0 then 12 else binary.length % 12)
    ∧ (∀ chunk ∈ rows binary,
        rowLine chunk
          = "    " ++ joinSep " " (chunk.map (fun b => hexLit b ++ ",")) ++ "\n") := by
  refine ⟨?_, rows_get_length binary, rows_getLast?_length binary, ?_⟩
  · intro b
    refine ⟨hexDigitChar (b.val / 16), hexDigitChar (b.val % 16), rfl, ?_, ?_⟩
    · exact isLowerHexDigit_hexDigitChar _ (by omega)
    · exact isLowerHexDigit_hexDigitChar _ (Nat.mod_lt _ (by omega))
  · intro chunk hc
    have hne : chunk ≠ [] := mem_rows_ne_nil binary chunk hc
    have hmap : chunk.map hexLit ≠ [] := by
      simpa using hne
    have hcomp : chunk.map (fun b => hexLit b ++ ",")
        = (chunk.map hexLit).map (fun s => s ++ ",") := by
      rw [List.map_map]
      rfl
    rw [hcomp, rowLine, ← joinSep_comma (chunk.map hexLit) hmap]
    have hsep : (",\n" : String) = "," ++ "\n" := by decide
    rw [hsep, ← String.append_assoc, ← String.append_assoc]

/-- C2 witness: on the 13-byte input `0x00..0x0c` the first row has 12
literals, the last row has one, and the single-literal row renders with
a trailing comma. -/
theorem spec_c2_row_layout_witness :
    (rows demo13)[0]?.map List.length = some 12
    ∧ (rows demo13).getLast?.map List.length = some 1
    ∧ rowLine [(12 : Byte)]
        = "    " ++ joinSep " " ([(12 : Byte)].map (fun b => hexLit b ++ ",")) ++ "\n" := by
  have e1 : rows demo13 = demo13.take 12 :: rows (demo13.drop 12) := by
    show rows ((0 : Byte) :: [1, 2, 3, 4, 5, 6, 7, 8, 9, 10, 11, 12]) = _
    rw [rows]
    rfl
  have e2 : rows (demo13.drop 12)
      = (demo13.drop 12).take 12 :: rows ((demo13.drop 12).drop 12) := by
    show rows ((12 : Byte) :: []) = _
    rw [rows]
    rfl
  have e3 : rows ((demo13.drop 12).drop 12) = [] := by
    show rows [] = []
    simp [rows]
  have e : rows demo13 = [demo13.take 12, (demo13.drop 12).take 12] := by
    rw [e1, e2, e3]
  obtain ⟨_, hmid, hlast, hcomma⟩ := spec_c2_row_layout demo13
  refine ⟨?_, ?_, ?_⟩
  · have h12 := hmid 0 (demo13.take 12) (by rw [e]; decide) (by rw [e]; rfl)
    rw [e]
    simpa using h12
  · have h1 := hlast ((demo13.drop 12).take 12) (by rw [e]; rfl)
    rw [e]
    simp only [List.getLast?_cons_cons, List.getLast?_singleton, Option.map_some']
    rw [h1]
    decide
  · exact hcomma [(12 : Byte)] (by rw [e]; decide)

/-- C3: Size invariant: for every input the emitted size constant is the
byte count written as a decimal literal (parsing that literal back as a
base-10 number recovers `len(binary)`), and for the empty input the
array body has zero rows. -/
theorem spec_c3_size_invariant (spv name : String) (data : List Byte) :
    spvToHeaderText spv name data
      = ("// Auto-generated from " ++ basename spv ++ "\n" ++ "// DO NOT EDIT!\n\n"
          ++ "#ifndef " ++ guardName name ++ "\n"
          ++ "#define " ++ guardName name ++ "\n\n"
          ++ "#include <cstdint>\n" ++ "#include <cstddef>\n\n"
          ++ "namespace Shaders \x7b\n\n"
          ++ "constexpr size_t " ++ name ++ "_size = ")
        ++ decRepr data.length
        ++ (";\n\n"
            ++ "constexpr uint8_t " ++ name ++ "_data[] = \x7b\n"
            ++ arrayBody data
            ++ "\x7d;\n\n"
            ++ "\x7d // namespace Shaders\n\n"
            ++ "#endif // " ++ guardName name ++ "\n")
    ∧ decVal (decRepr data.length).data = data.length
    ∧ rows ([] : List Byte) = []
    ∧ arrayBody ([] : List Byte) = "" := by
  refine ⟨?_, decVal_decDigits data.length, by simp [rows], by simp [arrayBody, rows]; rfl⟩
  rw [spvToHeaderText_eq]
  simp only [guardName, String.append_assoc]

/-- C4: Guard derivation: the guard token written in the `#ifndef`,
`#define` and closing `#endif` lines is `SHADER_` ++ uppercased logical
name ++ `_H`, and it depends on the supplied name only through its
uppercased form. -/
theorem spec_c4_guard (name : String) :
    guardName name = "SHADER_" ++ strUpper name ++ "_H"
    ∧ (∀ spv data, spvToHeaderText spv name data
        = "// Auto-generated from " ++ basename spv ++ "\n" ++ "// DO NOT EDIT!\n\n"
          ++ ("#ifndef " ++ ("SHADER_" ++ strUpper name ++ "_H") ++ "\n")
          ++ ("#define " ++ ("SHADER_" ++ strUpper name ++ "_H") ++ "\n\n")
          ++ "#include <cstdint>\n" ++ "#include <cstddef>\n\n"
          ++ "namespace Shaders \x7b\n\n"
          ++ ("constexpr size_t " ++ name ++ "_size = " ++ decRepr data.length ++ ";\n\n")
          ++ ("constexpr uint8_t " ++ name ++ "_data[] = \x7b\n")
          ++ arrayBody data
          ++ "\x7d;\n\n"
          ++ "\x7d // namespace Shaders\n\n"
          ++ ("#endif // " ++ ("SHADER_" ++ strUpper name ++ "_H") ++ "\n"))
    ∧ (∀ other : String, strUpper other = strUpper name →
        guardName other = guardName name) := by
  refine ⟨rfl, ?_, ?_⟩
  · intro spv data
    rw [spvToHeaderText_eq]
    simp only [guardName]
  · intro other h
    simp only [guardName, h]

/-- C4 witness: `aB` and `Ab` share the uppercased form `AB` and hence
the guard token, which equals `SHADER_AB_H`. -/
theorem spec_c4_guard_witness :
    guardName "aB" = guardName "Ab" ∧ guardName "aB" = "SHADER_AB_H" := by
  have h := (spec_c4_guard "Ab").2.2 "aB" (by decide)
  exact ⟨h, by decide⟩

/-- C5: Output template: the generated file is exactly, in order, the
two comment lines, the `#ifndef`/`#define` guard pair, the `<cstdint>`
and `<cstddef>` includes, the opening of namespace `Shaders`, the size
constant, the byte array, the namespace close, and the final `#endif`
with the same guard token. -/
theorem spec_c5_template (spv name : String) (data : List Byte) :
    spvToHeaderText spv name data =
      "// Auto-generated from " ++ basename spv ++ "\n" ++ "// DO NOT EDIT!\n\n"
      ++ ("#ifndef " ++ guardName name ++ "\n")
      ++ ("#define " ++ guardName name ++ "\n\n")
      ++ "#include <cstdint>\n" ++ "#include <cstddef>\n\n"
      ++ "namespace Shaders \x7b\n\n"
      ++ ("constexpr size_t " ++ name ++ "_size = " ++ decRepr data.length ++ ";\n\n")
      ++ ("constexpr uint8_t " ++ name ++ "_data[] = \x7b\n")
      ++ arrayBody data
      ++ "\x7d;\n\n"
      ++ "\x7d // namespace Shaders\n\n"
      ++ ("#endif // " ++ guardName name ++ "\n") :=
  spvToHeaderText_eq spv name data

/-- C6: Determinism: two runs on the same input path, logical name and
byte content produce byte-identical output text, whatever the invocation
time or platform of either run. -/
theorem spec_c6_determinism (e₁ e₂ : Env) (spv name : String) (data : List Byte) :
    runEmbedder e₁ spv name data = runEmbedder e₂ spv name data :=
  rfl

/-- C7 counterexample: the filesystem trace of a concrete conversion
does not match the temp-file-then-atomic-rename pattern the claim
asserts (its final operation is a close of the destination, not a
rename). -/
theorem spec_c7_counterexample :
    ¬ atomicWritePattern (spvToHeaderTrace "shader.spv" "shader.h" "shader" [])
        "shader.h" := by
  intro h
  have h1 := atomicWritePattern_lastIsRename h
  rw [spvToHeaderTrace, lastIsRename_persistTrace] at h1
  exact absurd h1 (by decide)

/-- C7 amended: persisting opens the destination path itself for
writing (truncating), writes the rendered chunks to it and closes it;
every operation in the trace acts on the destination directly and none
is a rename, so no temporary file or atomic rename is involved. -/
theorem spec_c7_amended (spv dest name : String) (data : List Byte) :
    (∀ op ∈ spvToHeaderTrace spv dest name data,
        opPath op = dest ∧ isRename op = false)
    ∧ (spvToHeaderTrace spv dest name data).head? = some (FsOp.openW dest)
    ∧ (spvToHeaderTrace spv dest name data).getLast? = some (FsOp.close dest) := by
  refine ⟨?_, rfl, ?_⟩
  · intro op hop
    simp [spvToHeaderTrace, persistTrace] at hop
    rcases hop with rfl | ⟨c, -, rfl⟩ | rfl
    · exact ⟨rfl, rfl⟩
    · exact ⟨rfl, rfl⟩
    · exact ⟨rfl, rfl⟩
  · have hsplit : spvToHeaderTrace spv dest name data
        = (FsOp.openW dest :: (writes spv name data).map (FsOp.write dest))
          ++ [FsOp.close dest] := by
      simp [spvToHeaderTrace, persistTrace]
    rw [hsplit, List.getLast?_concat]

/-- C7 witness: in a concrete trace, the close of the destination is an
operation of the trace, acts on the destination path and is not a
rename. -/
theorem spec_c7_amended_witness :
    opPath (FsOp.close "out.h") = "out.h" ∧ isRename (FsOp.close "out.h") = false := by
  have hm : FsOp.close "out.h" ∈ spvToHeaderTrace "in.spv" "out.h" "n" [] := by
    simp [spvToHeaderTrace, persistTrace]
  exact (spec_c7_amended "in.spv" "out.h" "n" []).1 _ hm

/-- C8 counterexample: with a nonexistent input path the process exits
with code 1 but writes nothing to standard error — the error message
goes to standard output — refuting the claim's standard-error part at a
concrete invocation. -/
theorem spec_c8_counterexample :
    ((fun _ => none : String → Option FileData) "missing.spv" = none)
    ∧ (pyMain ["spv_to_header.py", "missing.spv", "out.h", "shader"]
        (fun _ => none)).exitCode = 1
    ∧ (pyMain ["spv_to_header.py", "missing.spv", "out.h", "shader"]
        (fun _ => none)).stderrLines = []
    ∧ (pyMain ["spv_to_header.py", "missing.spv", "out.h", "shader"]
        (fun _ => none)).stdoutLines = ["Error: missing.spv not found"] := by
  refine ⟨rfl, ?_, ?_, ?_⟩ <;> rfl

/-- C8 amended: for every invocation with three positional arguments
whose input path does not exist, the program prints the error message to
standard output (not standard error), exits with code 1, and leaves the
filesystem — in particular any pre-existing destination file —
untouched. -/
theorem spec_c8_amended (argv : List String) (fs : String → Option FileData)
    (hlen : argv.length = 4) (hmiss : fs (argv.getD 1 "") = none) :
    (pyMain argv fs).exitCode = 1
    ∧ (pyMain argv fs).stdoutLines = ["Error: " ++ argv.getD 1 "" ++ " not found"]
    ∧ (pyMain argv fs).stderrLines = []
    ∧ (pyMain argv fs).fs = fs := by
  have hmiss' : fs (argv[1]?.getD "") = none := by simpa using hmiss
  unfold pyMain
  rw [if_neg (by omega)]
  simp [hmiss']

/-- C8 witness: the amended behaviour at a concrete invocation with a
missing input file. -/
theorem spec_c8_amended_witness :
    (pyMain ["spv_to_header.py", "missing.spv", "out.h", "shader"]
        (fun _ => none)).exitCode = 1
    ∧ (pyMain ["spv_to_header.py", "missing.spv", "out.h", "shader"]
        (fun _ => none)).stdoutLines = ["Error: missing.spv not found"] := by
  have h := spec_c8_amended ["spv_to_header.py", "missing.spv", "out.h", "shader"]
    (fun _ => none) (by decide) rfl
  refine ⟨h.1, ?_⟩
  rw [h.2.1]
  rfl

/-- C9 counterexample: invoked with no positional argument the process
exits with code 1 but writes nothing to standard error — the usage
message goes to standard output — refuting the claim's standard-error
part at a concrete invocation. -/
theorem spec_c9_counterexample :
    (pyMain ["spv_to_header.py"] (fun _ => none)).exitCode = 1
    ∧ (pyMain ["spv_to_header.py"] (fun _ => none)).stderrLines = []
    ∧ (pyMain ["spv_to_header.py"] (fun _ => none)).stdoutLines
        = ["Usage: spv_to_header.py <input.spv> <output.h> <variable_name>"] :=
  ⟨rfl, rfl, rfl⟩

/-- C9 amended: for every invocation whose positional argument count is
not three, the program prints the usage message to standard output (not
standard error), exits with code 1, and writes no file. -/
theorem spec_c9_amended (argv : List String) (fs : String → Option FileData)
    (h : argv.length ≠ 4) :
    (pyMain argv fs).exitCode = 1
    ∧ (pyMain argv fs).stdoutLines
        = ["Usage: spv_to_header.py <input.spv> <output.h> <variable_name>"]
    ∧ (pyMain argv fs).stderrLines = []
    ∧ (pyMain argv fs).fs = fs := by
  unfold pyMain
  rw [if_pos h]
  exact ⟨rfl, rfl, rfl, rfl⟩

/-- C9 witness: the amended behaviour at a concrete invocation with two
positional arguments. -/
theorem spec_c9_amended_witness :
    (pyMain ["spv_to_header.py", "a.spv", "out.h"] (fun _ => none)).exitCode = 1
    ∧ (pyMain ["spv_to_header.py", "a.spv", "out.h"] (fun _ => none)).stdoutLines
        = ["Usage: spv_to_header.py <input.spv> <output.h> <variable_name>"] := by
  have h := spec_c9_amended ["spv_to_header.py", "a.spv", "out.h"]
    (fun _ => none) (by decide)
  exact ⟨h.1, h.2.1⟩

/-- C10: No name validation: for every logical name whatsoever — the
empty string and non-identifier characters included — the conversion
completes with exit code 0, writes the destination file, and embeds the
name verbatim in the `_size` and `_data` symbols and its uppercased form
in the guard token; no validation step rejects any name. -/
theorem spec_c10_no_validation (name spv : String) (data : List Byte) :
    (pyMain ["spv_to_header.py", spv, "out.h", name]
        (fun p => if p = spv then some (.bin data) else none)).exitCode = 0
    ∧ (pyMain ["spv_to_header.py", spv, "out.h", name]
        (fun p => if p = spv then some (.bin data) else none)).fs "out.h"
        = some (.text (spvToHeaderText spv name data))
    ∧ spvToHeaderText spv name data
      = "// Auto-generated from " ++ basename spv ++ "\n" ++ "// DO NOT EDIT!\n\n"
        ++ ("#ifndef " ++ ("SHADER_" ++ strUpper name ++ "_H") ++ "\n")
        ++ ("#define " ++ ("SHADER_" ++ strUpper name ++ "_H") ++ "\n\n")
        ++ "#include <cstdint>\n" ++ "#include <cstddef>\n\n"
        ++ "namespace Shaders \x7b\n\n"
        ++ ("constexpr size_t " ++ name ++ "_size = " ++ decRepr data.length ++ ";\n\n")
        ++ ("constexpr uint8_t " ++ name ++ "_data[] = \x7b\n")
        ++ arrayBody data
        ++ "\x7d;\n\n"
        ++ "\x7d // namespace Shaders\n\n"
        ++ ("#endif // " ++ ("SHADER_" ++ strUpper name ++ "_H") ++ "\n") := by
  refine ⟨?_, ?_, ?_⟩
  · simp [pyMain]
  · simp [pyMain, FileData.readBytes]
  · rw [spvToHeaderText_eq]
    simp only [guardName]
